import Mathlib

/-!
Verification development for the lifi-fee-scraper repository.

Shallow embedding of the multi-chain indexing engine:
  * data model: `FeeCollectedEventData` (raw decoded log, src/types/events.ts),
    `FeeCollectedEventDTO` (MongoDB document, src/types/events.ts);
  * storage: the `feeCollectedEvents` collection with its unique index
    (src/models/FeeCollectedEvent.ts) and the `lastScannedBlocks` collection
    (src/models/LastScannedBlock.ts), combined in `DBState`;
  * `EventService` (src/services/eventService.ts): `storeEvents`,
    `getLastScannedBlock`, `updateLastScannedBlock`;
  * `ScannerService` (src/services/scannerService.ts): `scanBlocks` with its
    chunk loop, `scanChain`, `scanAllChains`;
  * configuration parsing of CHUNK_SIZE (src/utils/config.ts).

JS numbers that hold block numbers, log indexes and chain ids are embedded as
`Int` (they are integers everywhere in this code path).  Database and RPC
effects are embedded as explicit state passing (`DBState`) and a deterministic
per-chain oracle (`ChainEnv`); thrown JS errors are embedded as an explicit
`Option AppError` / `Except AppError` result.
-/

namespace FeeScraper

/-- The typed `args` of a decoded FeesCollected log
(src/types/events.ts, `FeeCollectedEventData.args`).  The fee fields are
BigNumber values transported as decimal strings. -/
structure EventArgs where
  token : String
  integrator : String
  integratorFee : String
  lifiFee : String
deriving DecidableEq, Repr

/-- A raw FeeCollected event as returned by the blockchain service
(src/types/events.ts `FeeCollectedEventData`; the fields of ethers' `Event`
that the scraper reads: `address`, `blockNumber`, `transactionHash`,
`logIndex`, plus the typed `args`). -/
structure FeeCollectedEventData where
  address : String
  blockNumber : Int
  transactionHash : String
  logIndex : Int
  args : EventArgs
deriving DecidableEq, Repr

/-- The MongoDB document shape for a stored fee event
(src/types/events.ts `FeeCollectedEventDTO`).  The storage-managed
`createdAt` / `updatedAt` timestamps are not modelled: no claim reads them. -/
structure FeeCollectedEventDTO where
  chainId : Int
  contractAddress : String
  token : String
  integrator : String
  integratorFee : String
  lifiFee : String
  blockNumber : Int
  transactionHash : String
  logIndex : Int
deriving DecidableEq, Repr

/-- The error taxonomy of src/errors/AppError.ts restricted to the classes the
scanner path distinguishes (`instanceof` tests), plus `genericError` for any
other thrown JS `Error`. -/
inductive AppError where
  | validationError (msg : String)
  | databaseError (msg : String)
  | blockchainError (msg : String)
  | genericError (msg : String)
deriving DecidableEq, Repr

/-- The database state the scanner touches: the `feeCollectedEvents`
collection (in insertion order) and the `lastScannedBlocks` collection as an
association list `chainId -> blockNumber` (the `chainId` field is unique,
src/models/LastScannedBlock.ts). -/
structure DBState where
  feeCollectedEvents : List FeeCollectedEventDTO
  lastScannedBlocks : List (Int × Int)
deriving DecidableEq, Repr

/-- The document built by `EventService.storeEvents` from one raw event
(src/services/eventService.ts: `events.map((event) => ({...}))`;
`.toString()` applied to the fee strings is the identity). -/
def toDTO (chainId : Int) (e : FeeCollectedEventData) : FeeCollectedEventDTO :=
  { chainId := chainId
    contractAddress := e.address
    token := e.args.token
    integrator := e.args.integrator
    integratorFee := e.args.integratorFee
    lifiFee := e.args.lifiFee
    blockNumber := e.blockNumber
    transactionHash := e.transactionHash
    logIndex := e.logIndex }

/-- The key of the unique index declared on the `feeCollectedEvents`
collection: `@index({ transactionHash: 1, logIndex: 1 }, { unique: true })`
(src/models/FeeCollectedEvent.ts).  Note that `chainId` is NOT part of this
key; the repository's model test asserts exactly this pair is checked. -/
def mongoUniqueKey (e : FeeCollectedEventDTO) : String × Int :=
  (e.transactionHash, e.logIndex)

/-- The application-level identity key string built by
`EventService.storeEvents`: `` `${chainId}_${transactionHash}_${logIndex}` ``. -/
def dupKey (d : FeeCollectedEventDTO) : String :=
  toString d.chainId ++ "_" ++ d.transactionHash ++ "_" ++ toString d.logIndex

/-- A collection whose documents satisfy the unique (transactionHash, logIndex)
index: no two entries share the index key. -/
def StoreUnique (l : List FeeCollectedEventDTO) : Prop :=
  l.Pairwise (fun a b => mongoUniqueKey a ≠ mongoUniqueKey b)

/-- MongoDB `insertMany(docs, { ordered: false })` against the unique
(transactionHash, logIndex) index: every document whose key is not already
present (in the collection or among the already-inserted documents of the same
batch) is inserted; a document whose key collides is skipped and recorded as a
duplicate-key (E11000) write error.  With `ordered: false` the remaining
documents are still attempted; the call throws iff at least one write error
occurred, which the Bool component records. -/
def insertManyUnordered :
    List FeeCollectedEventDTO → List FeeCollectedEventDTO →
    List FeeCollectedEventDTO × Bool
  | stored, [] => (stored, false)
  | stored, d :: ds =>
    if stored.any (fun e => decide (mongoUniqueKey e = mongoUniqueKey d)) then
      ((insertManyUnordered stored ds).1, true)
    else
      insertManyUnordered (stored ++ [d]) ds

/-- `documents` in `EventService.storeEvents`: the batch mapped to DTOs. -/
def documentsOf (events : List FeeCollectedEventData) (chainId : Int) :
    List FeeCollectedEventDTO :=
  events.map (toDTO chainId)

/-- `existingEvents` in `EventService.storeEvents`: the stored documents
matching the `$or` query over `{chainId, transactionHash, logIndex}` of each
document of the batch. -/
def existingEventsOf (stored : List FeeCollectedEventDTO)
    (docs : List FeeCollectedEventDTO) (chainId : Int) :
    List FeeCollectedEventDTO :=
  stored.filter (fun e =>
    docs.any (fun d =>
      decide (e.chainId = chainId ∧ e.transactionHash = d.transactionHash ∧
        e.logIndex = d.logIndex)))

/-- `existingKeys` in `EventService.storeEvents`: the identity-key strings of
the existing events (the JS `Set` is modelled by list membership). -/
def existingKeysOf (stored : List FeeCollectedEventDTO)
    (docs : List FeeCollectedEventDTO) (chainId : Int) : List String :=
  (existingEventsOf stored docs chainId).map dupKey

/-- `newDocuments` in `EventService.storeEvents`: the batch documents whose
identity key is not among the existing keys (`existingKeys.has(...)` is
membership in the key set). -/
def newDocumentsOf (stored : List FeeCollectedEventDTO)
    (events : List FeeCollectedEventData) (chainId : Int) :
    List FeeCollectedEventDTO :=
  (documentsOf events chainId).filter (fun d =>
    !(decide (dupKey d ∈ existingKeysOf stored (documentsOf events chainId) chainId)))

/-- The zod refinement `!isNaN(Number(val))` on the fee strings
(src/types/schemas.ts), modelled on the domain the scraper produces
(`BigNumber.toString()` output: a non-empty run of decimal digits). -/
def isNumericString (s : String) : Bool :=
  !s.isEmpty && s.toList.all Char.isDigit

/-- `FeeCollectedEventSchema.parse` (src/types/schemas.ts) as a Boolean
predicate: token and integrator are 42-character strings, the fees are numeric
strings, blockNumber and logIndex are non-negative integers (the zod `.int()`
test is inherent to `Int`), and the transaction hash has 66 characters. -/
def validEventData (e : FeeCollectedEventData) : Bool :=
  e.args.token.length = 42 && e.args.integrator.length = 42 &&
  isNumericString e.args.integratorFee && isNumericString e.args.lifiFee &&
  0 ≤ e.blockNumber && e.transactionHash.length = 66 && 0 ≤ e.logIndex

/-- `FeeCollectedEventDTOSchema.parse` (src/types/schemas.ts) as a Boolean
predicate on the stored document. -/
def validDTO (d : FeeCollectedEventDTO) : Bool :=
  0 ≤ d.chainId && d.contractAddress.length = 42 &&
  d.token.length = 42 && d.integrator.length = 42 &&
  isNumericString d.integratorFee && isNumericString d.lifiFee &&
  0 ≤ d.blockNumber && d.transactionHash.length = 66 && 0 ≤ d.logIndex

/-- `EventService.storeEvents(events, chainId)` (src/services/eventService.ts).
Returns the updated database state and the error surfaced to the caller, if
any.  Mapping to the source:
  * the `events.length === 0` early return;
  * duplicate filtering through `existingEvents` / `existingKeys` /
    `newDocuments` (definitions above), with its own early return;
  * zod validation of every raw event and then of every new DTO, each failure
    thrown as `ValidationError` (the JSON details appended to the source's
    message are not modelled; no claim reads them);
  * the unordered bulk insert.  The source first tries `insertMany` inside a
    mongoose session and falls back to the identical `insertMany` without a
    session when the store is not a replica set; both paths perform the same
    unordered insert, so they collapse to `insertManyUnordered`.  Any error it
    throws is caught and re-thrown as
    `DatabaseError("Failed to store events in database")`, while the documents
    that did not conflict remain inserted;
  * the outer catch re-throws `ValidationError` unchanged and wraps everything
    else in the same `DatabaseError` (logging is not modelled). -/
def storeEvents (st : DBState) (events : List FeeCollectedEventData)
    (chainId : Int) : DBState × Option AppError :=
  if events.length = 0 then (st, none)
  else if (newDocumentsOf st.feeCollectedEvents events chainId).length = 0 then
    (st, none)
  else if !(events.all validEventData) then
    (st, some (AppError.validationError "Invalid event data"))
  else if !((newDocumentsOf st.feeCollectedEvents events chainId).all validDTO) then
    (st, some (AppError.validationError "Invalid DTO data"))
  else if (insertManyUnordered st.feeCollectedEvents
      (newDocumentsOf st.feeCollectedEvents events chainId)).2 then
    ({ st with feeCollectedEvents :=
        (insertManyUnordered st.feeCollectedEvents
          (newDocumentsOf st.feeCollectedEvents events chainId)).1 },
      some (AppError.databaseError "Failed to store events in database"))
  else
    ({ st with feeCollectedEvents :=
        (insertManyUnordered st.feeCollectedEvents
          (newDocumentsOf st.feeCollectedEvents events chainId)).1 }, none)

/-- `LastScannedBlockModel.findOne({ chainId })` on the association list:
the record's blockNumber, if present. -/
def lookupLastScanned (l : List (Int × Int)) (chainId : Int) : Option Int :=
  (l.find? (fun p => p.1 == chainId)).map Prod.snd

/-- `config.chains[chainId]?.startBlock || 0` with the defaults of
src/utils/config.ts (no environment overrides): Ethereum (1) starts at
22500000, Polygon (137) at 61500000, the other supported chains at 0, and an
unknown chainId resolves to `undefined || 0 = 0`. -/
def configStartBlock (chainId : Int) : Int :=
  if chainId = 1 then 22500000
  else if chainId = 137 then 61500000
  else 0

/-- `EventService.getLastScannedBlock(chainId)`: the stored cursor, or the
configured start block when no record exists.  The `DatabaseError` path
(storage unreachable) is not modelled: the store is embedded as pure state. -/
def getLastScannedBlock (st : DBState) (chainId : Int) : Int :=
  match lookupLastScanned st.lastScannedBlocks chainId with
  | some b => b
  | none => configStartBlock chainId

/-- `LastScannedBlockModel.updateOne({ chainId }, { $set: { blockNumber } },
{ upsert: true })`: update the (unique) matching record in place, or append a
new record when none matches. -/
def upsertLastScanned : List (Int × Int) → Int → Int → List (Int × Int)
  | [], chainId, blockNumber => [(chainId, blockNumber)]
  | p :: rest, chainId, blockNumber =>
    if p.1 = chainId then (chainId, blockNumber) :: rest
    else p :: upsertLastScanned rest chainId blockNumber

/-- `EventService.updateLastScannedBlock(chainId, blockNumber)`
(src/services/eventService.ts): rejects a negative block number with
`ValidationError`, otherwise upserts the record. -/
def updateLastScannedBlock (st : DBState) (chainId blockNumber : Int) :
    DBState × Option AppError :=
  if blockNumber < 0 then
    (st, some (AppError.validationError "Block number cannot be negative"))
  else
    ({ st with lastScannedBlocks :=
        upsertLastScanned st.lastScannedBlocks chainId blockNumber }, none)

/-- The blockchain-facing effects one chain's scan consumes, as a
deterministic oracle: `getLatestBlock` and `scanBlockRange` (the latter wraps
`blockchainService.loadFeeCollectorEvents` and classifies rpc/network/timeout
failures as `BlockchainError`; the oracle returns the already-classified
result). -/
structure ChainEnv where
  latestBlock : Int
  fetchEvents : Int → Int → Except AppError (List FeeCollectedEventData)

/-- `x ? x : fallback` applied to an optional JS number argument:
`undefined` and `0` are falsy, every other integer is truthy
(src/services/scannerService.ts lines resolving `_fromBlock` / `_toBlock`). -/
def truthyOr (override : Option Int) (fallback : Int) : Int :=
  match override with
  | some v => if v ≠ 0 then v else fallback
  | none => fallback

/-- `error instanceof BlockchainError || error instanceof DatabaseError`
(the inner catch of the chunk loop). -/
def isFatal : AppError → Bool
  | AppError.blockchainError _ => true
  | AppError.databaseError _ => true
  | _ => false

/-- The body of one iteration of the chunk loop of
`ScannerService.scanBlocks`: fetch the window (`scanBlockRange`), store the
events, then upsert the last scanned block to the window end.  The first
failure aborts the iteration; state changes already made (partial inserts)
persist.  The `allEvents` accumulation feeds only the final logging pass and
is not modelled. -/
def stepChunk (env : ChainEnv) (chainId : Int) (st : DBState)
    (current chunkEnd : Int) : DBState × Option AppError :=
  match env.fetchEvents current chunkEnd with
  | Except.error e => (st, some e)
  | Except.ok chunkEvents =>
    match storeEvents st chunkEvents chainId with
    | (st2, some e) => (st2, some e)
    | (st2, none) => updateLastScannedBlock st2 chainId chunkEnd

/-- The window sequence of the chunk loop:
`for (currentBlock = fromBlock; currentBlock < toBlock; currentBlock += W)`
with `chunkEndBlock = min(currentBlock + W - 1, toBlock)`.  The loop
terminates iff `W ≥ 1`; the `fuel` argument makes the recursion structural and
is inert whenever `fuel ≥ (toBlock - current).toNat` and `1 ≤ W` (each
iteration then advances `current` by at least 1). -/
def chunkWindows (W : Int) : Nat → Int → Int → List (Int × Int)
  | 0, _, _ => []
  | fuel + 1, current, toBlock =>
    if current < toBlock then
      (current, min (current + W - 1) toBlock) ::
        chunkWindows W fuel (current + W) toBlock
    else []

/-- The number of windows `⌈(toBlock - current) / W⌉` (as a natural number;
0 when the range is empty), used to state the closed form of the window
sequence. -/
def numWindows (W current toBlock : Int) : Nat :=
  ((toBlock - current).toNat + (W.toNat - 1)) / W.toNat

/-- The chunk loop of `ScannerService.scanBlocks`
(src/services/scannerService.ts): for each window, run `stepChunk`; on a
`BlockchainError` or `DatabaseError` abort the chain's run re-raising the
error; on any other error skip the window and continue with the next chunk
(the `continue` still executes `currentBlock += W`).  Returns the final
database state, the list of progress values successfully written (in write
order), and the error surfaced out of the loop, if any.  Fuel as in
`chunkWindows`. -/
def scanLoop (env : ChainEnv) (W chainId : Int) :
    Nat → DBState → Int → Int → DBState × List Int × Option AppError
  | 0, st, _, _ => (st, [], none)
  | fuel + 1, st, current, toBlock =>
    if current < toBlock then
      let chunkEnd := min (current + W - 1) toBlock
      match stepChunk env chainId st current chunkEnd with
      | (st2, none) =>
        let r := scanLoop env W chainId fuel st2 (current + W) toBlock
        (r.1, chunkEnd :: r.2.1, r.2.2)
      | (st2, some e) =>
        if isFatal e then (st2, [], some e)
        else scanLoop env W chainId fuel st2 (current + W) toBlock
    else (st, [], none)

/-- `ScannerService.scanBlocks(chainId, _fromBlock?, _toBlock?)`
(src/services/scannerService.ts).  The start block is the override when
truthy, else the stored cursor; the end block is the override when truthy,
else the chain head.  The loop is `scanLoop`; the post-loop
`parseFeeCollectorEvents` pass only logs and is effect-free.  The outer catch
re-throws `BlockchainError` and `DatabaseError` unchanged — and those are the
only error kinds the loop lets escape (every other chunk error is swallowed by
the inner catch); its message-matching rewrites apply only to non-AppError
exceptions from the pre-loop reads, which are modelled as pure. -/
def scanBlocks (env : ChainEnv) (W chainId : Int) (st : DBState)
    (fromOverride toOverride : Option Int) :
    DBState × List Int × Option AppError :=
  let fromBlock := truthyOr fromOverride (getLastScannedBlock st chainId)
  let toBlock := truthyOr toOverride env.latestBlock
  scanLoop env W chainId (toBlock - fromBlock).toNat st fromBlock toBlock

/-- `ScannerService.scanChain(chainId)` (src/services/scannerService.ts):
read the cursor and the head; when `fromBlock >= latestBlock` the chain is up
to date and nothing runs; otherwise scan `[fromBlock, latestBlock]`.  Its
catch only logs and re-throws, so it is the identity on the result. -/
def scanChain (env : ChainEnv) (W chainId : Int) (st : DBState) :
    DBState × List Int × Option AppError :=
  let fromBlock := getLastScannedBlock st chainId
  let latestBlock := env.latestBlock
  if fromBlock ≥ latestBlock then (st, [], none)
  else scanBlocks env W chainId st (some fromBlock) (some latestBlock)

/-- `ScannerService.scanAllChains()` (src/services/scannerService.ts):
`Promise.all` over `config.enabledChains`, each chain's `scanChain` wrapped in
a try/catch that logs the error and deliberately does not re-throw.  The
cooperative tasks are embedded sequentially (the claims settled against this
definition concern only which chains are attempted and whether errors
propagate, not interleaving).  Returns the final state and, per chain in
order, the logged terminal error of that chain's scan (`none` = success); no
error escapes, so the function always returns normally. -/
def scanAllChains (env : Int → ChainEnv) (W : Int) (st : DBState) :
    List Int → DBState × List (Int × Option AppError)
  | [] => (st, [])
  | c :: rest =>
    let r := scanChain (env c) W c st
    let rest2 := scanAllChains env W r.1 rest
    (rest2.1, (c, r.2.2) :: rest2.2)

/-- The numeric value of a run of decimal digits. -/
def digitsVal (cs : List Char) : Nat :=
  cs.foldl (fun acc c => acc * 10 + (c.toNat - 48)) 0

/-- JS `parseInt(s, 10)`: skip leading whitespace, read an optional sign, then
the longest leading run of decimal digits; the result is NaN (modelled as
`none`) when that run is empty. -/
def jsParseInt (s : String) : Option Int :=
  let cs := s.toList.dropWhile Char.isWhitespace
  match cs with
  | '-' :: rest =>
    let ds := rest.takeWhile Char.isDigit
    if ds.isEmpty then none else some (-(digitsVal ds : Int))
  | '+' :: rest =>
    let ds := rest.takeWhile Char.isDigit
    if ds.isEmpty then none else some (digitsVal ds : Int)
  | rest =>
    let ds := rest.takeWhile Char.isDigit
    if ds.isEmpty then none else some (digitsVal ds : Int)

/-- `config.chunkSize` (src/utils/config.ts line 77):
`parseInt(process.env.CHUNK_SIZE || "1000", 10)`.  An unset or empty (falsy)
CHUNK_SIZE falls back to the string "1000".  The parsed value — whatever it
is, including 0 and negative numbers — is stored in `config.chunkSize`
without any further check. -/
def configChunkSize (chunkSizeEnv : Option String) : Option Int :=
  let s := match chunkSizeEnv with
    | some v => if v = "" then "1000" else v
    | none => "1000"
  jsParseInt s

/-- Modelled from the spec: "`chunkSize` must be ≥ 1; 0 is rejected at
configuration time."  The acceptance predicate the specification describes,
used to compare against what `configChunkSize` actually does. -/
def specChunkSizeAccepted (n : Int) : Bool :=
  1 ≤ n

/-- The per-window success hypothesis used for happy-path theorems: every
window of the chunk sequence succeeds (fetch, store and progress write all
return without error), from whatever state it is reached in. -/
def AllChunksOk (env : ChainEnv) (chainId W : Int) (fuel : Nat)
    (current toBlock : Int) : Prop :=
  ∀ s w, w ∈ chunkWindows W fuel current toBlock →
    (stepChunk env chainId s w.1 w.2).2 = none

/-- `s2` differs from `stF` at most by one upsert of chain `c`'s progress
record (the perturbation a replayed run introduces mid-loop). -/
def ProgressPerturbed (c : Int) (stF s2 : DBState) : Prop :=
  s2 = stF ∨ ∃ v, s2 = { stF with
    lastScannedBlocks := upsertLastScanned stF.lastScannedBlocks c v }

/-! ### Concrete instances used by witnesses and counterexamples -/

/-- A 42-character address literal. -/
def addrEx : String := "0xaaaaaaaaaaaaaaaaaaaaaaaaaaaaaaaaaaaaaaaa"

/-- A 66-character transaction hash literal. -/
def txEx : String :=
  "0xbbbbbbbbbbbbbbbbbbbbbbbbbbbbbbbbbbbbbbbbbbbbbbbbbbbbbbbbbbbbbbbb"

/-- A schema-valid raw event at block 1100. -/
def evEx : FeeCollectedEventData :=
  { address := addrEx
    blockNumber := 1100
    transactionHash := txEx
    logIndex := 0
    args :=
      { token := addrEx
        integrator := addrEx
        integratorFee := "100"
        lifiFee := "50" } }

/-- `evEx` as the chain-137 document. -/
def dtoEx : FeeCollectedEventDTO := toDTO 137 evEx

/-- The same document persisted under chainId 1: it shares
(transactionHash, logIndex) with `dtoEx` but not the chainId. -/
def dtoExChain1 : FeeCollectedEventDTO := { dtoEx with chainId := 1 }

/-- The empty database. -/
def st0 : DBState := { feeCollectedEvents := [], lastScannedBlocks := [] }

/-- An oracle whose head is 1999 and that serves `evEx` exactly in the window
containing block 1100 and no events elsewhere. -/
def envOneEvent : ChainEnv :=
  { latestBlock := 1999
    fetchEvents := fun a b =>
      if a ≤ 1100 ∧ 1100 ≤ b then Except.ok [evEx] else Except.ok [] }

/-- An oracle with no events at all. -/
def envEmpty : ChainEnv :=
  { latestBlock := 1999
    fetchEvents := fun _ _ => Except.ok [] }

/-- An oracle whose every fetch throws a plain (non-Blockchain, non-Database)
error. -/
def envBoom : ChainEnv :=
  { latestBlock := 7
    fetchEvents := fun _ _ => Except.error (AppError.genericError "boom") }

end FeeScraper

namespace FeeScraper

/-! ### Lemmas about the unordered bulk insert -/

theorem insertMany_sub (s ds : List FeeCollectedEventDTO) :
    List.Sublist s (insertManyUnordered s ds).1 := by
  induction ds generalizing s with
  | nil => simp [insertManyUnordered]
  | cons d ds ih =>
    by_cases h : s.any (fun e => decide (mongoUniqueKey e = mongoUniqueKey d)) = true
    · rw [insertManyUnordered, if_pos h]
      exact ih s
    · rw [insertManyUnordered, if_neg h]
      exact (List.sublist_append_left s [d]).trans (ih (s ++ [d]))

theorem insertMany_eq_append_of_no_conflict (s ds : List FeeCollectedEventDTO)
    (h : (insertManyUnordered s ds).2 = false) :
    (insertManyUnordered s ds).1 = s ++ ds := by
  induction ds generalizing s with
  | nil => simp [insertManyUnordered]
  | cons d ds ih =>
    by_cases hc : s.any (fun e => decide (mongoUniqueKey e = mongoUniqueKey d)) = true
    · rw [insertManyUnordered, if_pos hc] at h
      simp at h
    · rw [insertManyUnordered, if_neg hc] at h ⊢
      rw [ih (s ++ [d]) h]
      simp

theorem insertMany_single_collision (l : List FeeCollectedEventDTO)
    (d : FeeCollectedEventDTO) (h : ∃ e ∈ l, mongoUniqueKey e = mongoUniqueKey d) :
    insertManyUnordered l [d] = (l, true) := by
  have hc : l.any (fun e => decide (mongoUniqueKey e = mongoUniqueKey d)) = true := by
    rw [List.any_eq_true]
    obtain ⟨e, he, hk⟩ := h
    exact ⟨e, he, by simpa using hk⟩
  rw [insertManyUnordered, if_pos hc]
  simp [insertManyUnordered]

theorem insertMany_mem_of_fresh (s ds : List FeeCollectedEventDTO)
    (d : FeeCollectedEventDTO) (hmem : d ∈ ds)
    (hs : ∀ e ∈ s, mongoUniqueKey e ≠ mongoUniqueKey d)
    (hds : ∀ d2 ∈ ds, mongoUniqueKey d2 = mongoUniqueKey d → d2 = d) :
    d ∈ (insertManyUnordered s ds).1 := by
  induction ds generalizing s with
  | nil => cases hmem
  | cons d0 ds ih =>
    by_cases hd0 : d0 = d
    · subst hd0
      have hc : (s.any (fun e => decide (mongoUniqueKey e = mongoUniqueKey d0))) = false := by
        rw [List.any_eq_false]
        intro e he
        simpa using hs e he
      rw [insertManyUnordered, if_neg (by simp [hc])]
      exact (insertMany_sub (s ++ [d0]) ds).subset (by simp)
    · have hkey : mongoUniqueKey d0 ≠ mongoUniqueKey d := fun h =>
        hd0 (hds d0 (List.mem_cons_self d0 ds) h)
      have hmem' : d ∈ ds := by
        rcases List.mem_cons.mp hmem with h | h
        · exact absurd h.symm hd0
        · exact h
      have hds' : ∀ d2 ∈ ds, mongoUniqueKey d2 = mongoUniqueKey d → d2 = d := by
        intro d2 h2 hk
        exact hds d2 (List.mem_cons_of_mem d0 h2) hk
      by_cases hc : s.any (fun e => decide (mongoUniqueKey e = mongoUniqueKey d0)) = true
      · rw [insertManyUnordered, if_pos hc]
        exact ih s hmem' hs hds'
      · rw [insertManyUnordered, if_neg hc]
        apply ih (s ++ [d0]) hmem' ?_ hds'
        intro e he
        rcases List.mem_append.mp he with h | h
        · exact hs e h
        · simp at h
          subst h
          exact hkey

theorem insertMany_storeUnique (l ds : List FeeCollectedEventDTO)
    (h : StoreUnique l) : StoreUnique (insertManyUnordered l ds).1 := by
  induction ds generalizing l with
  | nil => simpa [insertManyUnordered]
  | cons d ds ih =>
    by_cases hc : l.any (fun e => decide (mongoUniqueKey e = mongoUniqueKey d)) = true
    · rw [insertManyUnordered, if_pos hc]
      exact ih l h
    · rw [insertManyUnordered, if_neg hc]
      apply ih
      rw [StoreUnique, List.pairwise_append]
      refine ⟨h, by simp, ?_⟩
      intro a ha b hb
      simp only [List.mem_singleton] at hb
      subst hb
      rw [Bool.not_eq_true, List.any_eq_false] at hc
      simpa using hc a ha

theorem storeUnique_mem_eq (l : List FeeCollectedEventDTO) (h : StoreUnique l) :
    ∀ e1 ∈ l, ∀ e2 ∈ l, mongoUniqueKey e1 = mongoUniqueKey e2 → e1 = e2 := by
  induction l with
  | nil => simp
  | cons a l ih =>
    rw [StoreUnique, List.pairwise_cons] at h
    intro e1 h1 e2 h2 hk
    rcases List.mem_cons.mp h1 with h1a | h1l
    · rcases List.mem_cons.mp h2 with h2a | h2l
      · rw [h1a, h2a]
      · rw [h1a] at hk
        exact absurd hk (h.1 e2 h2l)
    · rcases List.mem_cons.mp h2 with h2a | h2l
      · rw [h2a] at hk
        exact absurd hk.symm (h.1 e1 h1l)
      · exact ih h.2 e1 h1l e2 h2l hk

end FeeScraper

namespace FeeScraper

/-! ### Lemmas about storeEvents -/

theorem mem_documentsOf_chainId (d : FeeCollectedEventDTO)
    (events : List FeeCollectedEventData) (c : Int)
    (h : d ∈ documentsOf events c) : d.chainId = c := by
  rw [documentsOf, List.mem_map] at h
  obtain ⟨e, _, rfl⟩ := h
  rfl

theorem mem_existingEventsOf_self (l docs : List FeeCollectedEventDTO)
    (c : Int) (d : FeeCollectedEventDTO) (hl : d ∈ l) (hd : d ∈ docs)
    (hc : d.chainId = c) : d ∈ existingEventsOf l docs c := by
  rw [existingEventsOf, List.mem_filter]
  refine ⟨hl, ?_⟩
  rw [List.any_eq_true]
  exact ⟨d, hd, by simp [hc]⟩

theorem existingKeysOf_append (l1 l2 docs : List FeeCollectedEventDTO) (c : Int) :
    existingKeysOf (l1 ++ l2) docs c
      = existingKeysOf l1 docs c ++ existingKeysOf l2 docs c := by
  rw [existingKeysOf, existingKeysOf, existingKeysOf, existingEventsOf,
    existingEventsOf, existingEventsOf, List.filter_append, List.map_append]

theorem existingKeysOf_sub (l l' docs : List FeeCollectedEventDTO) (c : Int)
    (h : List.Sublist l l') :
    ∀ k ∈ existingKeysOf l docs c, k ∈ existingKeysOf l' docs c := by
  intro k hk
  rw [existingKeysOf] at hk ⊢
  exact ((h.filter _).map dupKey).subset hk

theorem newDocumentsOf_nil_mono (l l' : List FeeCollectedEventDTO)
    (events : List FeeCollectedEventData) (c : Int) (hsub : List.Sublist l l')
    (h : newDocumentsOf l events c = []) : newDocumentsOf l' events c = [] := by
  rw [newDocumentsOf, List.filter_eq_nil] at h ⊢
  intro d hd
  have h1 := h d hd
  simp only [Bool.not_eq_true', Bool.not_eq_false] at h1 ⊢
  rw [decide_eq_true_iff] at h1 ⊢
  exact existingKeysOf_sub l l' _ c hsub _ h1

theorem storeEvents_noop (st : DBState) (events : List FeeCollectedEventData)
    (chainId : Int)
    (h : newDocumentsOf st.feeCollectedEvents events chainId = []) :
    storeEvents st events chainId = (st, none) := by
  by_cases he : events.length = 0
  · rw [storeEvents, if_pos he]
  · rw [storeEvents, if_neg he, if_pos (by rw [h]; rfl)]

theorem storeEvents_sub (st : DBState) (events : List FeeCollectedEventData)
    (chainId : Int) :
    List.Sublist st.feeCollectedEvents
      (storeEvents st events chainId).1.feeCollectedEvents := by
  rw [storeEvents]
  repeat' split
  all_goals simp only []
  any_goals exact List.Sublist.refl _
  all_goals exact insertMany_sub _ _

theorem storeEvents_progress_const (st : DBState)
    (events : List FeeCollectedEventData) (chainId : Int) :
    (storeEvents st events chainId).1.lastScannedBlocks
      = st.lastScannedBlocks := by
  rw [storeEvents]
  repeat' split
  all_goals rfl

theorem storeEvents_ok_covered (st st2 : DBState)
    (events : List FeeCollectedEventData) (chainId : Int)
    (h : storeEvents st events chainId = (st2, none)) :
    newDocumentsOf st2.feeCollectedEvents events chainId = [] := by
  rw [storeEvents] at h
  split at h
  · -- events empty
    rename_i he
    rw [List.length_eq_zero] at he
    subst he
    simp [newDocumentsOf, documentsOf]
  split at h
  · -- nothing new: state unchanged
    rename_i hn
    rw [List.length_eq_zero] at hn
    have hst : st = st2 := congrArg Prod.fst h
    rw [← hst]
    exact hn
  split at h
  · exact absurd (congrArg Prod.snd h) (by simp)
  split at h
  · exact absurd (congrArg Prod.snd h) (by simp)
  split at h
  · exact absurd (congrArg Prod.snd h) (by simp)
  · -- inserted without conflict
    rename_i hflag
    rw [Bool.not_eq_true] at hflag
    have hst : st2.feeCollectedEvents
        = st.feeCollectedEvents
          ++ newDocumentsOf st.feeCollectedEvents events chainId := by
      have h1 : (insertManyUnordered st.feeCollectedEvents
          (newDocumentsOf st.feeCollectedEvents events chainId)).1
            = st2.feeCollectedEvents :=
        congrArg (fun p => DBState.feeCollectedEvents p.1) h
      rw [← h1, insertMany_eq_append_of_no_conflict _ _ hflag]
    rw [newDocumentsOf, List.filter_eq_nil]
    intro d hd
    simp only [Bool.not_eq_true', Bool.not_eq_false, decide_eq_true_iff]
    rw [hst, existingKeysOf_append]
    by_cases hold : dupKey d ∈ existingKeysOf st.feeCollectedEvents
        (documentsOf events chainId) chainId
    · exact List.mem_append_left _ hold
    · refine List.mem_append_right _ ?_
      have hnew : d ∈ newDocumentsOf st.feeCollectedEvents events chainId := by
        rw [newDocumentsOf, List.mem_filter]
        exact ⟨hd, by simpa using hold⟩
      rw [existingKeysOf]
      refine List.mem_map.mpr ⟨d, ?_, rfl⟩
      exact mem_existingEventsOf_self _ _ _ d hnew hd
        (mem_documentsOf_chainId d events chainId hd)

end FeeScraper

namespace FeeScraper

/-! ### Lemmas about the progress store -/

theorem lookup_upsert (l : List (Int × Int)) (c v : Int) :
    lookupLastScanned (upsertLastScanned l c v) c = some v := by
  induction l with
  | nil =>
    rw [upsertLastScanned, lookupLastScanned]
    simp
  | cons p rest ih =>
    rw [upsertLastScanned]
    split
    · rw [lookupLastScanned]
      simp
    · rename_i h
      have h2 := ih
      rw [lookupLastScanned] at h2 ⊢
      rw [List.find?_cons_of_neg]
      · exact h2
      · simp [h]

theorem upsert_upsert (l : List (Int × Int)) (c v w : Int) :
    upsertLastScanned (upsertLastScanned l c v) c w = upsertLastScanned l c w := by
  induction l with
  | nil => simp [upsertLastScanned]
  | cons p rest ih =>
    by_cases h : p.1 = c
    · simp [upsertLastScanned, h]
    · simp [upsertLastScanned, h, ih]

theorem upsert_self (l : List (Int × Int)) (c v : Int)
    (h : lookupLastScanned l c = some v) : upsertLastScanned l c v = l := by
  induction l with
  | nil =>
    rw [lookupLastScanned] at h
    simp at h
  | cons p rest ih =>
    by_cases hp : p.1 = c
    · rw [lookupLastScanned, List.find?_cons_of_pos] at h
      · simp at h
        rw [upsertLastScanned, if_pos hp]
        rw [← hp, ← h]
      · simp [hp]
    · rw [upsertLastScanned, if_neg hp]
      congr 1
      apply ih
      rw [lookupLastScanned] at h ⊢
      rw [List.find?_cons_of_neg] at h
      · exact h
      · simp [hp]

theorem update_events_const (st : DBState) (c b : Int) :
    (updateLastScannedBlock st c b).1.feeCollectedEvents
      = st.feeCollectedEvents := by
  rw [updateLastScannedBlock]
  split <;> rfl

/-! ### Lemmas about one chunk step -/

theorem stepChunk_events_sub (env : ChainEnv) (c : Int) (st : DBState)
    (cur ce : Int) :
    List.Sublist st.feeCollectedEvents
      (stepChunk env c st cur ce).1.feeCollectedEvents := by
  cases hfe : env.fetchEvents cur ce with
  | error e =>
    simp only [stepChunk, hfe]
    exact List.Sublist.refl _
  | ok evs =>
    have hsub := storeEvents_sub st evs c
    cases hs : storeEvents st evs c with
    | mk st2 oe =>
      rw [hs] at hsub
      cases oe with
      | some e =>
        simp only [stepChunk, hfe, hs]
        exact hsub
      | none =>
        simp only [stepChunk, hfe, hs]
        rw [update_events_const]
        exact hsub

theorem stepChunk_ok_parts (env : ChainEnv) (c : Int) (st : DBState)
    (cur ce : Int) (st1 : DBState)
    (h : stepChunk env c st cur ce = (st1, none)) :
    ∃ evs sMid, env.fetchEvents cur ce = Except.ok evs
      ∧ storeEvents st evs c = (sMid, none)
      ∧ ¬ ce < 0
      ∧ st1 = { sMid with
          lastScannedBlocks := upsertLastScanned sMid.lastScannedBlocks c ce } := by
  cases hfe : env.fetchEvents cur ce with
  | error e =>
    simp only [stepChunk, hfe] at h
    exact absurd (congrArg Prod.snd h) (by simp)
  | ok evs =>
    cases hs : storeEvents st evs c with
    | mk st2 oe =>
      cases oe with
      | some e =>
        simp only [stepChunk, hfe, hs] at h
        exact absurd (congrArg Prod.snd h) (by simp)
      | none =>
        simp only [stepChunk, hfe, hs] at h
        rw [updateLastScannedBlock] at h
        split at h
        · exact absurd (congrArg Prod.snd h) (by simp)
        · rename_i hneg
          exact ⟨evs, st2, rfl, hs, hneg, (congrArg Prod.fst h).symm⟩

/-! ### Lemmas about the chunk loop -/

theorem scanLoop_exit (env : ChainEnv) (W c : Int) (fuel : Nat) (st : DBState)
    (cur toB : Int) (h : ¬ cur < toB) :
    scanLoop env W c fuel st cur toB = (st, [], none) := by
  cases fuel <;> simp [scanLoop, h]

theorem scanLoop_events_sub (env : ChainEnv) (W c : Int) (fuel : Nat)
    (st : DBState) (cur toB : Int) :
    List.Sublist st.feeCollectedEvents
      (scanLoop env W c fuel st cur toB).1.feeCollectedEvents := by
  induction fuel generalizing st cur with
  | zero => exact List.Sublist.refl _
  | succ n ih =>
    by_cases hc : cur < toB
    · rw [scanLoop]
      simp only [if_pos hc]
      have h1 := stepChunk_events_sub env c st cur (min (cur + W - 1) toB)
      cases hstep : stepChunk env c st cur (min (cur + W - 1) toB) with
      | mk st2 oe =>
        rw [hstep] at h1
        cases oe with
        | none =>
          simp only [hstep]
          exact h1.trans (ih st2 (cur + W))
        | some e =>
          simp only [hstep]
          split
          · exact h1
          · exact h1.trans (ih st2 (cur + W))
    · rw [scanLoop_exit env W c (n + 1) st cur toB hc]

theorem scanLoop_error_fatal (env : ChainEnv) (W c : Int) (fuel : Nat)
    (st : DBState) (cur toB : Int) (e : AppError)
    (h : (scanLoop env W c fuel st cur toB).2.2 = some e) : isFatal e = true := by
  induction fuel generalizing st cur with
  | zero => simp [scanLoop] at h
  | succ n ih =>
    by_cases hc : cur < toB
    · rw [scanLoop] at h
      simp only [if_pos hc] at h
      cases hstep : stepChunk env c st cur (min (cur + W - 1) toB) with
      | mk st2 oe =>
        simp only [hstep] at h
        cases oe with
        | none => exact ih _ _ h
        | some e2 =>
          simp only at h
          split at h
          · rename_i hfatal
            simp at h
            rw [← h]
            exact hfatal
          · exact ih _ _ h
    · rw [scanLoop_exit env W c (n + 1) st cur toB hc] at h
      simp at h

theorem scanLoop_trace_len (env : ChainEnv) (W c : Int) (fuel : Nat)
    (st : DBState) (cur toB : Int) :
    (scanLoop env W c fuel st cur toB).2.1.length
      ≤ (chunkWindows W fuel cur toB).length := by
  induction fuel generalizing st cur with
  | zero => simp [scanLoop, chunkWindows]
  | succ n ih =>
    by_cases hc : cur < toB
    · rw [scanLoop, chunkWindows]
      simp only [if_pos hc]
      cases hstep : stepChunk env c st cur (min (cur + W - 1) toB) with
      | mk st2 oe =>
        cases oe with
        | none =>
          simp only [hstep]
          simpa using ih _ _
        | some e =>
          simp only [hstep]
          split
          · simp
          · simp only [List.length_cons]
            exact le_trans (ih _ _) (Nat.le_succ _)
    · rw [scanLoop_exit env W c (n + 1) st cur toB hc, chunkWindows]
      simp [hc]

theorem chunkWindows_exit (W : Int) (fuel : Nat) (cur toB : Int)
    (h : ¬ cur < toB) : chunkWindows W fuel cur toB = [] := by
  cases fuel <;> simp [chunkWindows, h]

theorem scanLoop_trace_of_ok (env : ChainEnv) (W c : Int) (fuel : Nat)
    (st : DBState) (cur toB : Int)
    (hok : AllChunksOk env c W fuel cur toB) :
    (scanLoop env W c fuel st cur toB).2
      = ((chunkWindows W fuel cur toB).map Prod.snd, none) := by
  induction fuel generalizing st cur with
  | zero => simp [scanLoop, chunkWindows]
  | succ n ih =>
    by_cases hc : cur < toB
    · have hw : (cur, min (cur + W - 1) toB) ∈ chunkWindows W (n + 1) cur toB := by
        rw [chunkWindows]
        simp [hc]
      have hstep := hok st (cur, min (cur + W - 1) toB) hw
      rw [scanLoop, chunkWindows]
      simp only [if_pos hc]
      cases hs : stepChunk env c st cur (min (cur + W - 1) toB) with
      | mk st2 oe =>
        rw [hs] at hstep
        simp only at hstep
        subst hstep
        have hok2 : AllChunksOk env c W n (cur + W) toB := by
          intro s w hw2
          apply hok s w
          rw [chunkWindows]
          simp only [if_pos hc]
          exact List.mem_cons_of_mem _ hw2
        have hih := ih st2 (cur + W) hok2
        simp only [hs]
        simp [hih]
    · rw [scanLoop_exit env W c (n + 1) st cur toB hc,
        chunkWindows_exit W (n + 1) cur toB hc]
      simp

theorem scanLoop_trace_lb (env : ChainEnv) (W c : Int) (fuel : Nat)
    (st : DBState) (cur toB : Int) (hW : 1 ≤ W) :
    ∀ x ∈ (scanLoop env W c fuel st cur toB).2.1, min (cur + W - 1) toB ≤ x := by
  induction fuel generalizing st cur with
  | zero => simp [scanLoop]
  | succ n ih =>
    by_cases hc : cur < toB
    · rw [scanLoop]
      simp only [if_pos hc]
      cases hstep : stepChunk env c st cur (min (cur + W - 1) toB) with
      | mk st2 oe =>
        cases oe with
        | none =>
          simp only [hstep]
          intro x hx
          rcases List.mem_cons.mp hx with h | h
          · rw [h]
          · have h1 := ih st2 (cur + W) x h
            refine le_trans ?_ h1
            exact min_le_min (by omega) le_rfl
        | some e =>
          simp only [hstep]
          split
          · simp
          · intro x hx
            have h1 := ih st2 (cur + W) x hx
            refine le_trans ?_ h1
            exact min_le_min (by omega) le_rfl
    · rw [scanLoop_exit env W c (n + 1) st cur toB hc]
      simp

theorem scanLoop_trace_pairwise (env : ChainEnv) (W c : Int) (fuel : Nat)
    (st : DBState) (cur toB : Int) (hW : 1 ≤ W) :
    ((scanLoop env W c fuel st cur toB).2.1).Pairwise (· ≤ ·) := by
  induction fuel generalizing st cur with
  | zero => simp [scanLoop]
  | succ n ih =>
    by_cases hc : cur < toB
    · rw [scanLoop]
      simp only [if_pos hc]
      cases hstep : stepChunk env c st cur (min (cur + W - 1) toB) with
      | mk st2 oe =>
        cases oe with
        | none =>
          simp only [hstep]
          rw [List.pairwise_cons]
          refine ⟨?_, ih st2 (cur + W)⟩
          intro x hx
          have h1 := scanLoop_trace_lb env W c n st2 (cur + W) toB hW x hx
          refine le_trans ?_ h1
          exact min_le_min (by omega) le_rfl
        | some e =>
          simp only [hstep]
          split
          · simp
          · exact ih st2 (cur + W)
    · rw [scanLoop_exit env W c (n + 1) st cur toB hc]
      simp

/-! ### The closed form of the window sequence -/

theorem numWindows_zero (W cur toB : Int) (hW : 1 ≤ W) (h : ¬ cur < toB) :
    numWindows W cur toB = 0 := by
  rw [numWindows]
  have h1 : (toB - cur).toNat = 0 := by omega
  rw [h1]
  apply Nat.div_eq_of_lt
  omega

theorem numWindows_succ (W cur toB : Int) (hW : 1 ≤ W) (h : cur < toB) :
    numWindows W cur toB = numWindows W (cur + W) toB + 1 := by
  rw [numWindows, numWindows]
  have hD2 : (toB - (cur + W)).toNat = (toB - cur).toNat - W.toNat := by omega
  rw [hD2]
  set w := W.toNat with hw
  set D := (toB - cur).toNat with hD
  have hw1 : 1 ≤ w := by omega
  have hD1 : 1 ≤ D := by omega
  by_cases hcase : w ≤ D
  · have e : D + (w - 1) = (D - w + (w - 1)) + w := by omega
    rw [e, Nat.add_div_right _ (by omega)]
  · have h0 : D - w = 0 := by omega
    rw [h0]
    have e1 : (0 + (w - 1)) / w = 0 := Nat.div_eq_of_lt (by omega)
    have e2 : (D + (w - 1)) / w = 1 := by
      apply Nat.div_eq_of_lt_le
      · omega
      · omega
    rw [e1, e2]

theorem chunkWindows_closed (W cur toB : Int) (fuel : Nat)
    (hW : 1 ≤ W) (hfuel : (toB - cur).toNat ≤ fuel) :
    chunkWindows W fuel cur toB
      = (List.range (numWindows W cur toB)).map
          (fun k : Nat =>
            (cur + (k : Int) * W, min (cur + (k : Int) * W + W - 1) toB)) := by
  induction fuel generalizing cur with
  | zero =>
    have h : ¬ cur < toB := by omega
    rw [chunkWindows_exit W 0 cur toB h, numWindows_zero W cur toB hW h]
    simp
  | succ n ih =>
    by_cases hc : cur < toB
    · rw [chunkWindows]
      simp only [if_pos hc]
      rw [ih (cur + W) (by omega)]
      rw [numWindows_succ W cur toB hW hc]
      rw [List.range_succ_eq_map, List.map_cons, List.map_map]
      congr 1
      · simp
      · apply List.map_congr_left
        intro k _
        simp only [Function.comp_apply, Prod.mk.injEq]
        constructor
        · push_cast
          ring
        · congr 1
          push_cast
          ring
    · rw [chunkWindows_exit W (n + 1) cur toB hc, numWindows_zero W cur toB hW hc]
      simp

theorem chunkWindows_ends_lt (W cur toB : Int) (fuel : Nat) (hW : 1 ≤ W)
    (hdvd : W ∣ (toB - cur)) :
    ∀ w ∈ chunkWindows W fuel cur toB, w.2 < toB := by
  induction fuel generalizing cur with
  | zero => simp [chunkWindows]
  | succ n ih =>
    by_cases hc : cur < toB
    · rw [chunkWindows]
      simp only [if_pos hc]
      intro w hw
      rcases List.mem_cons.mp hw with h | h
      · rw [h]
        obtain ⟨m, hm⟩ := hdvd
        have hmul : 0 < W * m := by omega
        have hm1 : 1 ≤ m := by
          by_contra hmn
          push_neg at hmn
          have h2 : W * m ≤ W * 0 := by
            apply mul_le_mul_of_nonneg_left (by omega) (by omega)
          simp at h2
          omega
        have h3 : W * 1 ≤ W * m := mul_le_mul_of_nonneg_left hm1 (by omega)
        have h4 : cur + W ≤ toB := by omega
        exact lt_of_le_of_lt (min_le_left _ _) (by omega)
      · apply ih (cur + W) ?_ w h
        have e : toB - (cur + W) = (toB - cur) - W := by ring
        rw [e]
        exact dvd_sub hdvd (dvd_refl W)
    · rw [chunkWindows_exit W (n + 1) cur toB hc]
      simp

theorem chunkWindows_ends_getLast (W cur toB : Int) (fuel : Nat) (hW : 1 ≤ W)
    (hc : cur < toB) (hfuel : (toB - cur).toNat ≤ fuel) :
    ((chunkWindows W fuel cur toB).map Prod.snd).getLast?
      = some (if W ∣ (toB - cur) then toB - 1 else toB) := by
  induction fuel generalizing cur with
  | zero => exact absurd hfuel (by omega)
  | succ n ih =>
    rw [chunkWindows]
    simp only [if_pos hc]
    by_cases hlast : cur + W < toB
    · have hne : chunkWindows W n (cur + W) toB ≠ [] := by
        cases n with
        | zero => exact absurd hfuel (by omega)
        | succ m =>
          rw [chunkWindows]
          simp [hlast]
      have hcons : ∀ (a : Int) (l : List Int), l ≠ [] →
          (a :: l).getLast? = l.getLast? := by
        intro a l hl
        cases l with
        | nil => exact absurd rfl hl
        | cons b l2 => rw [List.getLast?_cons_cons]
      rw [List.map_cons, hcons _ _ (by simpa using hne)]
      rw [ih (cur + W) hlast (by omega)]
      have hiff : (W ∣ toB - (cur + W)) ↔ (W ∣ toB - cur) := by
        constructor <;> intro h
        · have e : toB - cur = (toB - (cur + W)) + W := by ring
          rw [e]
          exact dvd_add h (dvd_refl W)
        · have e : toB - (cur + W) = (toB - cur) - W := by ring
          rw [e]
          exact dvd_sub h (dvd_refl W)
      rw [if_congr hiff rfl rfl]
    · have htail : chunkWindows W n (cur + W) toB = [] :=
        chunkWindows_exit W n (cur + W) toB hlast
      rw [htail]
      simp only [List.map_cons, List.map_nil, List.getLast?_singleton]
      congr 1
      by_cases hdvd : W ∣ toB - cur
      · rw [if_pos hdvd]
        obtain ⟨m, hm⟩ := hdvd
        have hm1 : m = 1 := by
          by_contra hmn
          rcases lt_or_gt_of_ne hmn with hlt | hgt
          · have hle : m ≤ 0 := by omega
            have h2 : W * m ≤ W * 0 := mul_le_mul_of_nonneg_left hle (by omega)
            simp at h2
            omega
          · have hge : 2 ≤ m := by omega
            have h2 : W * 2 ≤ W * m := mul_le_mul_of_nonneg_left hge (by omega)
            omega
        rw [hm1, mul_one] at hm
        have e : cur + W - 1 = toB - 1 := by omega
        rw [e]
        exact min_eq_left (by omega)
      · rw [if_neg hdvd]
        have hne2 : toB ≠ cur + W := by
          intro h
          exact hdvd ⟨1, by omega⟩
        exact min_eq_right (by omega)

/-! ### Replay: a second run over an already-indexed range is a no-op -/

theorem scanLoop_replay_aux (env : ChainEnv) (W c : Int) (fuel : Nat) :
    ∀ (st s2 : DBState) (cur toB : Int),
    1 ≤ W → cur < toB → (toB - cur).toNat ≤ fuel →
    (scanLoop env W c fuel st cur toB).2.2 = none →
    (scanLoop env W c fuel st cur toB).2.1
      = (chunkWindows W fuel cur toB).map Prod.snd →
    ProgressPerturbed c (scanLoop env W c fuel st cur toB).1 s2 →
    scanLoop env W c fuel s2 cur toB
      = ((scanLoop env W c fuel st cur toB).1,
         (scanLoop env W c fuel st cur toB).2.1, none) := by
  induction fuel with
  | zero =>
    intro st s2 cur toB hW hc hfuel _ _ _
    exact absurd hfuel (by omega)
  | succ n ih =>
    intro st s2 cur toB hW hc hfuel herr htr hpp
    have hwin : chunkWindows W (n + 1) cur toB
        = (cur, min (cur + W - 1) toB) :: chunkWindows W n (cur + W) toB := by
      rw [chunkWindows]
      simp [hc]
    cases hstep : stepChunk env c st cur (min (cur + W - 1) toB) with
    | mk st1 oe =>
      cases oe with
      | some e =>
        by_cases hfatal : isFatal e = true
        · rw [scanLoop] at herr
          simp only [if_pos hc, hstep, hfatal] at herr
          simp at herr
        · have hrun1 : scanLoop env W c (n + 1) st cur toB
              = scanLoop env W c n st1 (cur + W) toB := by
            rw [scanLoop]
            simp only [if_pos hc, hstep]
            rw [if_neg hfatal]
          rw [hrun1] at htr
          have hlen := scanLoop_trace_len env W c n st1 (cur + W) toB
          rw [htr, hwin] at hlen
          simp at hlen
      | none =>
        obtain ⟨evs, sMid, hfe, hsev, hce, hst1⟩ :=
          stepChunk_ok_parts env c st cur (min (cur + W - 1) toB) st1 hstep
        have hrun1 : scanLoop env W c (n + 1) st cur toB
            = ((scanLoop env W c n st1 (cur + W) toB).1,
               (min (cur + W - 1) toB)
                 :: (scanLoop env W c n st1 (cur + W) toB).2.1,
               (scanLoop env W c n st1 (cur + W) toB).2.2) := by
          rw [scanLoop]
          simp [if_pos hc, hstep]
        rw [hrun1] at herr htr hpp ⊢
        have herr2 : (scanLoop env W c n st1 (cur + W) toB).2.2 = none := herr
        have hpp2 : ProgressPerturbed c
            (scanLoop env W c n st1 (cur + W) toB).1 s2 := hpp
        rw [hwin, List.map_cons] at htr
        have htr2 : (scanLoop env W c n st1 (cur + W) toB).2.1
            = (chunkWindows W n (cur + W) toB).map Prod.snd := by
          have h2 : (min (cur + W - 1) toB)
                :: (scanLoop env W c n st1 (cur + W) toB).2.1
              = (min (cur + W - 1) toB)
                :: (chunkWindows W n (cur + W) toB).map Prod.snd := htr
          injection h2
        have hs2events : s2.feeCollectedEvents
            = (scanLoop env W c n st1 (cur + W) toB).1.feeCollectedEvents := by
          rcases hpp2 with h | ⟨v, h⟩ <;> rw [h]
        -- storeEvents on the replayed state is a no-op
        have hcov : newDocumentsOf sMid.feeCollectedEvents evs c = [] :=
          storeEvents_ok_covered st sMid evs c hsev
        have hsub1 : List.Sublist sMid.feeCollectedEvents
            (scanLoop env W c n st1 (cur + W) toB).1.feeCollectedEvents := by
          have h1 : st1.feeCollectedEvents = sMid.feeCollectedEvents := by
            rw [hst1]
          have h2 := scanLoop_events_sub env W c n st1 (cur + W) toB
          rw [h1] at h2
          exact h2
        have hcov2 : newDocumentsOf s2.feeCollectedEvents evs c = [] := by
          rw [hs2events]
          exact newDocumentsOf_nil_mono _ _ evs c hsub1 hcov
        have hnoop : storeEvents s2 evs c = (s2, none) :=
          storeEvents_noop s2 evs c hcov2
        have hstep2 : stepChunk env c s2 cur (min (cur + W - 1) toB)
            = ({ s2 with lastScannedBlocks := upsertLastScanned s2.lastScannedBlocks c (min (cur + W - 1) toB) }, none) := by
          simp only [stepChunk, hfe, hnoop]
          rw [updateLastScannedBlock, if_neg hce]
        by_cases hnext : cur + W < toB
        · -- more windows: apply the induction hypothesis to the tail
          have hpp3 : ProgressPerturbed c
              (scanLoop env W c n st1 (cur + W) toB).1
              { s2 with lastScannedBlocks := upsertLastScanned s2.lastScannedBlocks c (min (cur + W - 1) toB) } := by
            rcases hpp2 with h | ⟨v, h⟩
            · right
              exact ⟨min (cur + W - 1) toB, by rw [h]⟩
            · right
              refine ⟨min (cur + W - 1) toB, ?_⟩
              rw [h]
              simp [upsert_upsert]
          have hih := ih st1
            { s2 with lastScannedBlocks := upsertLastScanned s2.lastScannedBlocks c (min (cur + W - 1) toB) }
            (cur + W) toB hW hnext (by omega) herr2 htr2 hpp3
          rw [scanLoop]
          simp only [if_pos hc, hstep2]
          rw [hih]
        · -- last window
          have hexit := scanLoop_exit env W c n st1 (cur + W) toB hnext
          rw [hexit] at herr2 htr2 hpp2 ⊢
          have hs2' : { s2 with lastScannedBlocks := upsertLastScanned s2.lastScannedBlocks c (min (cur + W - 1) toB) } = st1 := by
            rcases hpp2 with h | ⟨v, h⟩
            · rw [h, hst1]
              simp [upsert_upsert]
            · rw [h, hst1]
              simp [upsert_upsert]
          rw [scanLoop]
          simp only [if_pos hc, hstep2]
          rw [hs2', hexit]

/-! ### Claim theorems -/

/-- Claim C1, counterexample: two events that agree on (transactionHash,
logIndex) but differ in chainId can NOT both be persisted, contrary to the
claim: with the chain-1 copy already stored, storing the same
(transactionHash, logIndex) under chainId 137 is rejected by the unique index
and surfaces DatabaseError, leaving the collection unchanged. -/
theorem crossChain_duplicate_rejected_cex :
    dtoExChain1.chainId ≠ dtoEx.chainId
    ∧ dtoExChain1.transactionHash = dtoEx.transactionHash
    ∧ dtoExChain1.logIndex = dtoEx.logIndex
    ∧ storeEvents { feeCollectedEvents := [dtoExChain1], lastScannedBlocks := [] } [evEx] 137
      = ({ feeCollectedEvents := [dtoExChain1], lastScannedBlocks := [] },
         some (AppError.databaseError "Failed to store events in database")) := by
  decide

/-- Claim C1 (amended): the Event Store's unique index is on the pair
(transactionHash, logIndex) only — chainId is not part of the key.
Consequently (i) in a collection satisfying the index, agreement on the pair
(hence in particular on the full triple) implies the same stored record;
(ii) inserting a document whose pair key matches any stored document is
rejected with a duplicate-key error, regardless of chainId; and (iii) the
unordered bulk insert preserves the index invariant. -/
theorem unique_index_is_pair_not_triple :
    (∀ l, StoreUnique l → ∀ e1 ∈ l, ∀ e2 ∈ l,
        e1.transactionHash = e2.transactionHash → e1.logIndex = e2.logIndex →
        e1 = e2)
    ∧ (∀ (l : List FeeCollectedEventDTO) (d : FeeCollectedEventDTO),
        (∃ e ∈ l, mongoUniqueKey e = mongoUniqueKey d) →
        insertManyUnordered l [d] = (l, true))
    ∧ (∀ l ds, StoreUnique l → StoreUnique (insertManyUnordered l ds).1) := by
  refine ⟨?_, insertMany_single_collision, insertMany_storeUnique⟩
  intro l hu e1 h1 e2 h2 htx hlog
  apply storeUnique_mem_eq l hu e1 h1 e2 h2
  rw [mongoUniqueKey, mongoUniqueKey, htx, hlog]

/-- Claim C1 witness: the pair-key enforcement applied to the concrete
cross-chain pair. -/
theorem unique_index_is_pair_not_triple_witness :
    insertManyUnordered [dtoExChain1] [dtoEx] = ([dtoExChain1], true) :=
  unique_index_is_pair_not_triple.2.1 [dtoExChain1] dtoEx
    ⟨dtoExChain1, by decide, by decide⟩

/-- Claim C2, counterexample: a duplicate-key conflict during the unordered
bulk insert is NOT swallowed: storing a batch containing the same event twice
inserts the first copy (the unordered insert does not abort) but the call
surfaces DatabaseError instead of returning normally. -/
theorem dup_key_error_not_swallowed_cex :
    (storeEvents st0 [evEx, evEx] 137).2
      = some (AppError.databaseError "Failed to store events in database")
    ∧ (storeEvents st0 [evEx, evEx] 137).1.feeCollectedEvents = [dtoEx] := by
  decide

/-- Claim C2 (amended): a duplicate-key conflict in the unordered bulk insert
does not abort the insertion of the remaining documents — every new document
whose index key conflicts with nothing is still persisted — but the conflict
is not swallowed: storeEvents raises
DatabaseError("Failed to store events in database") to its caller. -/
theorem storeEvents_dup_conflict_surfaces_error (st : DBState)
    (events : List FeeCollectedEventData) (chainId : Int)
    (hv1 : events.all validEventData = true)
    (hv2 : (newDocumentsOf st.feeCollectedEvents events chainId).all validDTO
      = true)
    (hdup : (insertManyUnordered st.feeCollectedEvents
      (newDocumentsOf st.feeCollectedEvents events chainId)).2 = true) :
    storeEvents st events chainId
      = ({ st with feeCollectedEvents := (insertManyUnordered st.feeCollectedEvents (newDocumentsOf st.feeCollectedEvents events chainId)).1 },
         some (AppError.databaseError "Failed to store events in database"))
    ∧ ∀ d ∈ newDocumentsOf st.feeCollectedEvents events chainId,
        (∀ e2 ∈ st.feeCollectedEvents, mongoUniqueKey e2 ≠ mongoUniqueKey d) →
        (∀ d2 ∈ newDocumentsOf st.feeCollectedEvents events chainId,
          mongoUniqueKey d2 = mongoUniqueKey d → d2 = d) →
        d ∈ (storeEvents st events chainId).1.feeCollectedEvents := by
  have hne_new : newDocumentsOf st.feeCollectedEvents events chainId ≠ [] := by
    intro h0
    rw [h0] at hdup
    simp [insertManyUnordered] at hdup
  have hne_ev : ¬ events.length = 0 := by
    intro h0
    rw [List.length_eq_zero] at h0
    apply hne_new
    rw [h0, newDocumentsOf, documentsOf]
    rfl
  have hlen : ¬ (newDocumentsOf st.feeCollectedEvents events chainId).length
      = 0 := by
    simpa [List.length_eq_zero] using hne_new
  have hmain : storeEvents st events chainId
      = ({ st with feeCollectedEvents := (insertManyUnordered st.feeCollectedEvents (newDocumentsOf st.feeCollectedEvents events chainId)).1 },
         some (AppError.databaseError "Failed to store events in database")) := by
    rw [storeEvents, if_neg hne_ev, if_neg hlen, if_neg (by simp [hv1]),
      if_neg (by simp [hv2]), if_pos hdup]
  refine ⟨hmain, ?_⟩
  intro d hd hfresh huniq
  rw [hmain]
  exact insertMany_mem_of_fresh _ _ d hd hfresh huniq

/-- Claim C2 witness: the double-insertion batch, where the conflict is
raised and surfaced. -/
theorem storeEvents_dup_conflict_surfaces_error_witness :
    storeEvents st0 [evEx, evEx] 137
      = ({ st0 with feeCollectedEvents := (insertManyUnordered st0.feeCollectedEvents (newDocumentsOf st0.feeCollectedEvents [evEx, evEx] 137)).1 },
         some (AppError.databaseError "Failed to store events in database")) :=
  (storeEvents_dup_conflict_surfaces_error st0 [evEx, evEx] 137 (by decide)
    (by decide) (by decide)).1

/-- Claim C3: replaying the Scanner over the same [from, to] range (non-zero
explicit overrides, chunk size ≥ 1) after a fully successful run is a no-op:
the second run returns the same final database state — so the
feeCollectedEvents multiset and the final Progress record are unchanged —
writes the same progress sequence, and reports no error. -/
theorem scanBlocks_replay_idempotent (env : ChainEnv) (W chainId : Int)
    (st : DBState) (f t : Int) (hW : 1 ≤ W) (hf : f ≠ 0) (ht : t ≠ 0)
    (herr : (scanBlocks env W chainId st (some f) (some t)).2.2 = none)
    (htr : (scanBlocks env W chainId st (some f) (some t)).2.1
      = (chunkWindows W (t - f).toNat f t).map Prod.snd) :
    scanBlocks env W chainId (scanBlocks env W chainId st (some f) (some t)).1
        (some f) (some t)
      = ((scanBlocks env W chainId st (some f) (some t)).1,
         (scanBlocks env W chainId st (some f) (some t)).2.1, none) := by
  have hres : ∀ s : DBState, scanBlocks env W chainId s (some f) (some t)
      = scanLoop env W chainId (t - f).toNat s f t := by
    intro s
    rw [scanBlocks]
    simp [truthyOr, hf, ht]
  rw [hres] at herr htr
  simp only [hres]
  by_cases hc : f < t
  · exact scanLoop_replay_aux env W chainId (t - f).toNat st
      (scanLoop env W chainId (t - f).toNat st f t).1 f t hW hc (le_refl _)
      herr htr (Or.inl rfl)
  · rw [scanLoop_exit env W chainId (t - f).toNat st f t hc]
    exact scanLoop_exit env W chainId (t - f).toNat st f t hc

/-- Claim C3 witness: a two-window run over blocks [1000, 1999] with one event
in the first window; the replay leaves the state untouched. -/
theorem scanBlocks_replay_idempotent_witness :
    scanBlocks envOneEvent 500 137
        (scanBlocks envOneEvent 500 137 st0 (some 1000) (some 1999)).1
        (some 1000) (some 1999)
      = ((scanBlocks envOneEvent 500 137 st0 (some 1000) (some 1999)).1,
         (scanBlocks envOneEvent 500 137 st0 (some 1000) (some 1999)).2.1,
         none) :=
  scanBlocks_replay_idempotent envOneEvent 500 137 st0 1000 1999 (by decide)
    (by decide) (by decide) (by decide) (by decide)

/-- Claim C4: with chunk size W ≥ 1 the chunk loop processes exactly the
windows [from + kW, min(from + kW + W - 1, to)] for k = 0, 1, ... while
from + kW < to, in increasing order of k; and on a run in which every window
succeeds, each window — including a window with zero events — writes progress
equal to its window end, so the progress-write trace is exactly the window
ends in order, with no error. -/
theorem scanLoop_windows_exact (env : ChainEnv) (W chainId : Int)
    (st : DBState) (fromB toB : Int) (hW : 1 ≤ W)
    (hok : AllChunksOk env chainId W (toB - fromB).toNat fromB toB) :
    chunkWindows W (toB - fromB).toNat fromB toB
      = (List.range (numWindows W fromB toB)).map
          (fun k : Nat =>
            (fromB + (k : Int) * W, min (fromB + (k : Int) * W + W - 1) toB))
    ∧ (scanLoop env W chainId (toB - fromB).toNat st fromB toB).2
      = ((chunkWindows W (toB - fromB).toNat fromB toB).map Prod.snd, none) :=
  ⟨chunkWindows_closed W fromB toB _ hW (le_refl _),
   scanLoop_trace_of_ok env W chainId _ st fromB toB hok⟩

/-- Claim C4 witness: blocks [0, 12] with W = 5 and no events: three windows,
all of which write progress despite being empty. -/
theorem scanLoop_windows_exact_witness :
    (scanLoop envEmpty 5 137 ((12 : Int) - 0).toNat st0 0 12).2
      = ((chunkWindows 5 ((12 : Int) - 0).toNat 0 12).map Prod.snd, none) := by
  have hok : AllChunksOk envEmpty 137 5 ((12 : Int) - 0).toNat 0 12 := by
    intro s w hw
    have hwins : chunkWindows 5 ((12 : Int) - 0).toNat 0 12
        = [(0, 4), (5, 9), (10, 12)] := by decide
    rw [hwins] at hw
    have hstep : ∀ ce : Int, ¬ ce < 0 →
        (stepChunk envEmpty 137 s w.1 ce).2 = none := by
      intro ce hce
      simp only [stepChunk, envEmpty]
      simp only [storeEvents, List.length_nil, if_pos rfl]
      simp [updateLastScannedBlock, hce]
    rcases List.mem_cons.mp hw with h | hw2
    · rw [h]
      exact hstep 4 (by decide)
    rcases List.mem_cons.mp hw2 with h | hw3
    · rw [h]
      exact hstep 9 (by decide)
    rcases List.mem_cons.mp hw3 with h | hw4
    · rw [h]
      exact hstep 12 (by decide)
    · cases hw4
  exact (scanLoop_windows_exact envEmpty 5 137 st0 0 12 (by decide) hok).2

/-- Claim C5: within the per-chain chunk loop, the only error kinds that ever
surface out of the loop are BlockchainError and DatabaseError (everything else
is logged and swallowed), and at the first window of an iteration a failing
chunk step aborts the whole loop re-raising the error when it is a
BlockchainError or DatabaseError, while any other failure skips the window
and the loop continues with the next chunk. -/
theorem scanLoop_chunk_error_policy (env : ChainEnv) (W chainId : Int) :
    (∀ (fuel : Nat) (st : DBState) (cur toB : Int) (e : AppError),
      (scanLoop env W chainId fuel st cur toB).2.2 = some e →
      isFatal e = true)
    ∧ (∀ (fuel : Nat) (st : DBState) (cur toB : Int) (st2 : DBState)
        (e : AppError), cur < toB →
        stepChunk env chainId st cur (min (cur + W - 1) toB) = (st2, some e) →
        (isFatal e = true →
          scanLoop env W chainId (fuel + 1) st cur toB = (st2, [], some e))
        ∧ (isFatal e = false →
          scanLoop env W chainId (fuel + 1) st cur toB
            = scanLoop env W chainId fuel st2 (cur + W) toB)) := by
  constructor
  · intro fuel st cur toB e h
    exact scanLoop_error_fatal env W chainId fuel st cur toB e h
  · intro fuel st cur toB st2 e hc hstep
    constructor
    · intro hfatal
      rw [scanLoop]
      simp only [if_pos hc, hstep, hfatal]
      simp
    · intro hfatal
      rw [scanLoop]
      simp only [if_pos hc, hstep]
      rw [if_neg (by simp [hfatal])]

/-- Claim C5 witness: a chunk that fails with a plain (non-Blockchain,
non-Database) error is skipped and the loop continues with the next chunk. -/
theorem scanLoop_chunk_error_policy_witness :
    scanLoop envBoom 5 1 1 st0 0 7 = scanLoop envBoom 5 1 0 st0 5 7 :=
  ((scanLoop_chunk_error_policy envBoom 5 1).2 0 st0 0 7 st0
    (AppError.genericError "boom") (by decide) (by decide)).2 (by decide)

/-- Claim C6: for chunk size W ≥ 1, the progress values successively written
by one run of the Scanner's chunk loop (through
EventService.updateLastScannedBlock) are non-decreasing. -/
theorem scanBlocks_progress_monotone (env : ChainEnv) (W chainId : Int)
    (st : DBState) (fromO toO : Option Int) (hW : 1 ≤ W) :
    ((scanBlocks env W chainId st fromO toO).2.1).Pairwise (· ≤ ·) := by
  rw [scanBlocks]
  exact scanLoop_trace_pairwise env W chainId _ st _ _ hW

/-- Claim C6 witness: the two-window run over [1000, 1999]. -/
theorem scanBlocks_progress_monotone_witness :
    ((scanBlocks envOneEvent 500 137 st0 (some 1000) (some 1999)).2.1).Pairwise
      (· ≤ ·) :=
  scanBlocks_progress_monotone envOneEvent 500 137 st0 (some 1000) (some 1999)
    (by decide)

/-- Claim C7: scanAllChains attempts a scan for every enabled chain, in
order, threading the shared storage through all of them; a chain's terminal
error is recorded in the log component and never propagated, so the function
always returns normally and no chain's failure prevents the scans of the
others. -/
theorem scanAllChains_attempts_every_chain (env : Int → ChainEnv) (W : Int)
    (st : DBState) (chains : List Int) :
    ((scanAllChains env W st chains).2.map Prod.fst = chains)
    ∧ ((scanAllChains env W st chains).1
        = chains.foldl (fun s cc => (scanChain (env cc) W cc s).1) st) := by
  induction chains generalizing st with
  | nil => exact ⟨rfl, rfl⟩
  | cons cc rest ih =>
    constructor
    · simp only [scanAllChains, List.map_cons]
      rw [(ih _).1]
    · simp only [scanAllChains, List.foldl_cons]
      rw [(ih _).2]

/-- Claim C8, counterexample: CHUNK_SIZE=0 is parsed and accepted into
config.chunkSize even though it is below the spec's lower bound of 1 —
nothing rejects it at configuration time. -/
theorem chunk_size_zero_accepted_cex :
    configChunkSize (some "0") = some 0 ∧ specChunkSizeAccepted 0 = false := by
  decide

/-- Claim C8 (amended): configuration performs no validation of CHUNK_SIZE:
any non-empty value is passed through parseInt verbatim into config.chunkSize,
with no rejection of 0 or of any other value below 1. -/
theorem configChunkSize_no_validation (v : String) (h : ¬ v = "") :
    configChunkSize (some v) = jsParseInt v := by
  rw [configChunkSize]
  simp [h]

/-- Claim C8 witness: the pass-through at the value "0". -/
theorem configChunkSize_no_validation_witness :
    configChunkSize (some "0") = jsParseInt "0" :=
  configChunkSize_no_validation "0" (by decide)

/-- Claim C9: the chunk loop runs only while current < head.  When head - from
is an exact positive multiple of W, every window ends strictly below head (so
the head block itself is never fetched) and, on a run in which every window
succeeds, the final progress written is head - 1; otherwise the final progress
written is head. -/
theorem scanLoop_head_boundary (env : ChainEnv) (W chainId : Int)
    (st : DBState) (fromB toB : Int) (hW : 1 ≤ W) (hlt : fromB < toB)
    (hok : AllChunksOk env chainId W (toB - fromB).toNat fromB toB) :
    (W ∣ (toB - fromB) →
      (∀ w ∈ chunkWindows W (toB - fromB).toNat fromB toB, w.2 < toB)
      ∧ (scanLoop env W chainId (toB - fromB).toNat st fromB toB).2.1.getLast?
          = some (toB - 1))
    ∧ (¬ W ∣ (toB - fromB) →
      (scanLoop env W chainId (toB - fromB).toNat st fromB toB).2.1.getLast?
        = some toB) := by
  have htr := scanLoop_trace_of_ok env W chainId (toB - fromB).toNat st fromB
    toB hok
  have htr1 : (scanLoop env W chainId (toB - fromB).toNat st fromB toB).2.1
      = (chunkWindows W (toB - fromB).toNat fromB toB).map Prod.snd :=
    congrArg Prod.fst htr
  have hlast := chunkWindows_ends_getLast W fromB toB (toB - fromB).toNat hW
    hlt (le_refl _)
  constructor
  · intro hdvd
    refine ⟨chunkWindows_ends_lt W fromB toB _ hW hdvd, ?_⟩
    rw [htr1, hlast, if_pos hdvd]
  · intro hdvd
    rw [htr1, hlast, if_neg hdvd]

/-- Claim C9 witness: [0, 10] with W = 5 — an exact multiple — never covers
block 10 and ends with progress 9. -/
theorem scanLoop_head_boundary_witness :
    (∀ w ∈ chunkWindows 5 ((10 : Int) - 0).toNat 0 10, w.2 < 10)
    ∧ (scanLoop envEmpty 5 137 ((10 : Int) - 0).toNat st0 0 10).2.1.getLast?
        = some ((10 : Int) - 1) := by
  have hok : AllChunksOk envEmpty 137 5 ((10 : Int) - 0).toNat 0 10 := by
    intro s w hw
    have hwins : chunkWindows 5 ((10 : Int) - 0).toNat 0 10
        = [(0, 4), (5, 9)] := by decide
    rw [hwins] at hw
    have hstep : ∀ ce : Int, ¬ ce < 0 →
        (stepChunk envEmpty 137 s w.1 ce).2 = none := by
      intro ce hce
      simp only [stepChunk, envEmpty]
      simp only [storeEvents, List.length_nil, if_pos rfl]
      simp [updateLastScannedBlock, hce]
    rcases List.mem_cons.mp hw with h | hw2
    · rw [h]
      exact hstep 4 (by decide)
    rcases List.mem_cons.mp hw2 with h | hw3
    · rw [h]
      exact hstep 9 (by decide)
    · cases hw3
  exact (scanLoop_head_boundary envEmpty 5 137 st0 0 10 (by decide)
    (by decide) hok).1 (by decide)

/-- Claim C10: the optional scanBlocks overrides are tested for JS
truthiness, not presence: passing 0 as _fromBlock behaves exactly like
passing no override (the stored cursor is used as the scan start), and
passing 0 as _toBlock behaves like no override (the chain head is used as the
scan end). -/
theorem scanBlocks_zero_override_uses_fallback (env : ChainEnv)
    (W chainId : Int) (st : DBState) (fb tb : Option Int) :
    scanBlocks env W chainId st (some 0) tb
        = scanBlocks env W chainId st none tb
    ∧ scanBlocks env W chainId st fb (some 0)
        = scanBlocks env W chainId st fb none
    ∧ truthyOr (some 0) (getLastScannedBlock st chainId)
        = getLastScannedBlock st chainId
    ∧ truthyOr (some 0) env.latestBlock = env.latestBlock := by
  refine ⟨?_, ?_, ?_, ?_⟩ <;> simp [scanBlocks, truthyOr]

end FeeScraper
